import Mathlib

/-!
Verification of the streaming speech-recognition core of silentkeys.

This file shallowly embeds the Rust functions of the repository that the
claims refer to, and proves or refutes each claim against the embedding.

Modelling conventions:
* Rust `i64`/`i32` are modelled as `Int` and `usize` as `Nat` (overflow is not
  reached by any claim input).
* Rust `f32`/`f64` values are modelled as exact rationals (`ℚ`); the claims
  settled over them are order-theoretic, so rounding is immaterial, and
  `is_finite` holds for every rational.
* Rust `i64` division truncates toward zero, which is `Int.tdiv` (not `/`).
* Rust strings are modelled by `String`; `str::trim` is modelled explicitly
  over the character list (`trim_chars`), as Lean's own `String.trim` is
  byte-position based.
-/

/-! ## Data model: `streaming/hypothesis.rs` -/

def FRAME_DURATION_MS : Int := 80

structure TokenWithTime where
  token_id : Int
  text : String
  start_frame : Nat
  end_frame : Nat
  deriving DecidableEq

def TokenWithTime.start_ms (t : TokenWithTime) : Int :=
  (t.start_frame : Int) * FRAME_DURATION_MS

def TokenWithTime.end_ms (t : TokenWithTime) : Int :=
  (t.end_frame : Int) * FRAME_DURATION_MS

structure WordWithTime where
  text : String
  t0_ms : Int
  t1_ms : Int
  end_frame : Nat
  last_token_id : Int
  deriving DecidableEq

def WordWithTime.center_ms (w : WordWithTime) : Int :=
  (w.t0_ms + w.t1_ms).tdiv 2

/-- `WordWithTime::matches_in_time_bucket` from `streaming/hypothesis.rs`. -/
def WordWithTime.matches_in_time_bucket (w other : WordWithTime) (bucket_ms : Int) : Bool :=
  if w.text ≠ other.text then false
  else w.center_ms.tdiv bucket_ms == other.center_ms.tdiv bucket_ms

/-! ## Word aggregation: `streaming/word_aggregation.rs` -/

/-- Model of Rust `str::trim` over the character list: drop whitespace from
both ends.  (Lean's `Char.isWhitespace` covers the ASCII whitespace relevant
to the claims.) -/
def trim_chars (l : List Char) : List Char :=
  ((l.dropWhile Char.isWhitespace).reverse.dropWhile Char.isWhitespace).reverse

/-- `tokens.iter().map(|t| t.text.as_str()).collect::<String>()`. -/
def concat_text (tokens : List TokenWithTime) : String :=
  tokens.foldl (fun acc t => acc ++ t.text) ""

/-- `finalize_word` from `streaming/word_aggregation.rs`. -/
def finalize_word (tokens : List TokenWithTime) : Option WordWithTime :=
  match tokens.head?, tokens.getLast? with
  | some first, some last =>
    let text := trim_chars (concat_text tokens).data
    if text.isEmpty then none
    else some { text := String.mk text, t0_ms := first.start_ms, t1_ms := last.end_ms,
                end_frame := last.end_frame, last_token_id := last.token_id }
  | _, _ => none

/-- `token.text.starts_with(' ')`. -/
def starts_with_space (t : TokenWithTime) : Bool :=
  match t.text.data with
  | [] => false
  | c :: _ => c == ' '

/-- The loop of `tokens_to_words`: remaining tokens, the current word buffer
(`current_word_tokens`), and the accumulated words. -/
def t2w_loop : List TokenWithTime → List TokenWithTime → List WordWithTime → List WordWithTime
  | [], cur, words =>
    if cur.isEmpty then words
    else
      match finalize_word cur with
      | some w => words ++ [w]
      | none => words
  | token :: rest, cur, words =>
    if (starts_with_space token || cur.isEmpty) && !cur.isEmpty then
      match finalize_word cur with
      | some w => t2w_loop rest [token] (words ++ [w])
      | none => t2w_loop rest [token] words
    else t2w_loop rest (cur ++ [token]) words

/-- `tokens_to_words` from `streaming/word_aggregation.rs`. -/
def tokens_to_words (tokens : List TokenWithTime) : List WordWithTime :=
  if tokens.isEmpty then [] else t2w_loop tokens [] []

/-- The maximal token groups that `tokens_to_words` finalizes, in order: a new
group starts at each token whose text begins with the space marker (the first
token always starts a group). -/
def group_go : List TokenWithTime → List TokenWithTime → List (List TokenWithTime)
  | [], cur => if cur.isEmpty then [] else [cur]
  | token :: rest, cur =>
    if (starts_with_space token || cur.isEmpty) && !cur.isEmpty then
      cur :: group_go rest [token]
    else group_go rest (cur ++ [token])

def word_groups (tokens : List TokenWithTime) : List (List TokenWithTime) :=
  if tokens.isEmpty then [] else group_go tokens []

/-- Number of input tokens whose text begins with the space marker. -/
def count_space_tokens (tokens : List TokenWithTime) : Nat :=
  (tokens.filter starts_with_space).length

example : tokens_to_words [⟨0, "hello", 0, 2⟩, ⟨0, " world", 2, 4⟩] =
    [⟨"hello", 0, 160, 2, 0⟩, ⟨"world", 160, 320, 4, 0⟩] := by decide

example : tokens_to_words [⟨1, " ", 0, 1⟩] = [] := by decide

/-! ## Hypothesis manager: `streaming/word_hypothesis.rs` -/

structure WordHypothesisConfig where
  history_size : Nat
  commit_lag_ms : Int
  time_bucket_ms : Int
  safety_margin_words : Nat
  max_uncommitted_duration_ms : Int
  deriving DecidableEq

/-- `WordHypothesisConfig::default()`. -/
def WordHypothesisConfig.default : WordHypothesisConfig :=
  { history_size := 4, commit_lag_ms := 50, time_bucket_ms := 100,
    safety_margin_words := 0, max_uncommitted_duration_ms := 4000 }

structure WordHypothesisManager where
  config : WordHypothesisConfig
  committed : List WordWithTime
  current_draft : List WordWithTime
  history : List (List WordWithTime)
  emitted_committed_len : Nat
  deriving DecidableEq

/-- `WordHypothesisManager::new`. -/
def WordHypothesisManager.new (config : WordHypothesisConfig) : WordHypothesisManager :=
  { config := config, committed := [], current_draft := [], history := [],
    emitted_committed_len := 0 }

/-- `words_to_text`: committed then draft, joined by single spaces (the loop
appends a space before every word but the first). -/
def wtt_go : List WordWithTime → String → Bool → String
  | [], acc, _ => acc
  | w :: rest, acc, first =>
    wtt_go rest (acc ++ (if first then "" else " ") ++ w.text) false

def words_to_text (committed draft : List WordWithTime) : String :=
  wtt_go (committed ++ draft) "" true

/-- One comparison step of `longest_stable_prefix`: word `i` of a later draft
against word `i` of the first draft; `none` when the draft is exhausted or the
words disagree (the labeled `break 'outer`). -/
def lsp_step (w : WordWithTime) (bucket_ms : Int) (d : List WordWithTime) :
    Option (List WordWithTime) :=
  match d with
  | [] => none
  | x :: xs => if w.matches_in_time_bucket x bucket_ms then some xs else none

def lsp_go (bucket_ms : Int) : List WordWithTime → List (List WordWithTime) → List WordWithTime
  | [], _ => []
  | w :: ws, others =>
    match others.mapM (lsp_step w bucket_ms) with
    | some tails => w :: lsp_go bucket_ms ws tails
    | none => []

/-- `longest_stable_prefix` from `streaming/word_hypothesis.rs` (the history
front is the reference draft; every other draft must agree index by index). -/
def longest_stable_prefix_words (history : List (List WordWithTime)) (bucket_ms : Int) :
    List WordWithTime :=
  match history with
  | [] => []
  | first :: rest => lsp_go bucket_ms first rest

/-- `WordHypothesisManager::check_and_commit`. -/
def check_and_commit (config : WordHypothesisConfig) (stable : List WordWithTime)
    (current_audio_ms : Int) : Option (List WordWithTime) :=
  if stable.isEmpty then none
  else
    let to_commit := (stable.take (stable.length - config.safety_margin_words)).takeWhile
      (fun w => decide (w.t1_ms ≤ current_audio_ms - config.commit_lag_ms))
    if to_commit.isEmpty then none else some to_commit

/-- `WordHypothesisManager::check_force_commit`. -/
def check_force_commit (config : WordHypothesisConfig) (draft : List WordWithTime)
    (current_audio_ms : Int) : Option (List WordWithTime) :=
  match draft with
  | [] => none
  | first :: _ =>
    if current_audio_ms - first.t0_ms > config.max_uncommitted_duration_ms then some [first]
    else none

/-- History after storing the new draft: push to the back, pop the front when
over `history_size`. -/
def pushed_history (st : WordHypothesisManager) (new_words : List WordWithTime) :
    List (List WordWithTime) :=
  if st.config.history_size < (st.history ++ [new_words]).length then
    (st.history ++ [new_words]).tail
  else st.history ++ [new_words]

/-- The stable prefix computed by `update_draft`: only once the history holds
at least three drafts. -/
def stable_for (st : WordHypothesisManager) (new_words : List WordWithTime) :
    List WordWithTime :=
  if 3 ≤ (pushed_history st new_words).length then
    longest_stable_prefix_words (pushed_history st new_words) st.config.time_bucket_ms
  else []

/-- `check_and_commit(...).or_else(|| check_force_commit(...))`. -/
def words_to_commit_of (st : WordHypothesisManager) (new_words : List WordWithTime)
    (current_audio_ms : Int) : Option (List WordWithTime) :=
  match check_and_commit st.config (stable_for st new_words) current_audio_ms with
  | some v => some v
  | none => check_force_commit st.config new_words current_audio_ms

/-- `WordHypothesisManager::update_draft`.  The manager is threaded explicitly;
the returned pair is (updated manager, commit boundary). -/
def update_draft (st : WordHypothesisManager) (new_words : List WordWithTime)
    (current_audio_ms : Int) : WordHypothesisManager × Option (Nat × Int) :=
  match words_to_commit_of st new_words current_audio_ms with
  | some to_commit =>
    match to_commit.getLast? with
    | none =>
      ({ st with current_draft := new_words, history := pushed_history st new_words }, none)
    | some last =>
      ({ st with
          committed := st.committed ++ to_commit,
          current_draft := new_words.filter (fun w => decide (last.t1_ms < w.t0_ms)),
          history := (pushed_history st new_words).map
            (fun d => d.filter (fun w => decide (last.t1_ms < w.t0_ms))) },
        some (last.end_frame, last.last_token_id))
  | none =>
    ({ st with current_draft := new_words, history := pushed_history st new_words }, none)

/-- `WordHypothesisManager::take_newly_committed`. -/
def take_newly_committed (st : WordHypothesisManager) :
    WordHypothesisManager × Option String :=
  let committed_chars := (words_to_text st.committed []).data
  if st.emitted_committed_len < committed_chars.length then
    let new_text := committed_chars.drop st.emitted_committed_len
    let st' := { st with emitted_committed_len := committed_chars.length }
    if (trim_chars new_text).isEmpty then (st', none) else (st', some (String.mk new_text))
  else (st, none)

def get_full_text (st : WordHypothesisManager) : String :=
  words_to_text st.committed st.current_draft

def get_draft_only_text (st : WordHypothesisManager) : String :=
  words_to_text [] st.current_draft

/-! ## Streaming pipeline patch emission: `streaming/pipeline.rs` -/

structure TranscriptionPatch where
  start : Nat
  endIdx : Nat
  text : String
  stable : Bool
  deriving DecidableEq

/-- The stable-patch emission step of the decode tick (pipeline.rs lines
179-191): if newly committed text exists, a patch with `start = 0, end = 0` is
emitted.  (`endIdx` is the source field `end`, renamed: `end` is a Lean
keyword.) -/
def emit_stable_step (st : WordHypothesisManager) :
    WordHypothesisManager × Option TranscriptionPatch :=
  match take_newly_committed st with
  | (st', some new_committed) =>
    (st', some { start := 0, endIdx := 0, text := new_committed, stable := true })
  | (st', none) => (st', none)

/-- One decode tick restricted to the hypothesis-manager/patch part:
`update_draft` with the tick's aggregated words, then stable-patch emission. -/
def decode_tick (st : WordHypothesisManager) (call : List WordWithTime × Int) :
    WordHypothesisManager × Option TranscriptionPatch :=
  emit_stable_step (update_draft st call.1 call.2).1

def run_ticks : WordHypothesisManager → List (List WordWithTime × Int) →
    WordHypothesisManager × List (Option TranscriptionPatch)
  | st, [] => (st, [])
  | st, c :: rest =>
    let (st1, p) := decode_tick st c
    let (st2, ps) := run_ticks st1 rest
    (st2, p :: ps)

/-- Fold a sequence of `update_draft` calls (ignoring the returned boundaries). -/
def run_drafts (st : WordHypothesisManager) (calls : List (List WordWithTime × Int)) :
    WordHypothesisManager :=
  calls.foldl (fun s c => (update_draft s c.1 c.2).1) st

/-! ## Decoding session: `streaming/decoding.rs` -/

def SAMPLES_PER_FRAME : Nat := 1280

def CONTEXT_FRAMES : Nat := 20

structure DecodingSessionSt where
  encoder_cursor : Nat
  buffer_start_frame : Nat
  audio_buffer : List ℚ
  last_token : Int
  deriving DecidableEq

/-- The token construction of `DecodingSession::advance_segment` (decoding.rs
lines 106-127): decoded ids and their slice-relative timestamps become
`TokenWithTime`s at global frames.  `decode_sequence` returns equal-length id
and timestamp vectors, modelled by `zip`. -/
def draft_tokens_of (vocab : List String) (encoder_cursor : Nat)
    (token_ids : List Int) (timestamps : List Nat) : List TokenWithTime :=
  (token_ids.zip timestamps).map (fun p =>
    let idx := p.1.toNat
    let text := if idx < vocab.length then vocab.getD idx "" else ""
    let abs_frame := encoder_cursor + p.2
    { token_id := p.1, text := text, start_frame := abs_frame, end_frame := abs_frame + 2 })

/-- `DecodingSession::commit_to`.  Nat subtraction is saturating, matching the
source's `saturating_sub`; `drain(0..n)` is `List.drop n`. -/
def commit_to (st : DecodingSessionSt) (frame_limit : Nat) (last_token : Int) :
    DecodingSessionSt :=
  if st.encoder_cursor < frame_limit then
    if st.buffer_start_frame < frame_limit - CONTEXT_FRAMES then
      if (frame_limit - CONTEXT_FRAMES - st.buffer_start_frame) * SAMPLES_PER_FRAME <
          st.audio_buffer.length then
        { encoder_cursor := frame_limit,
          buffer_start_frame :=
            st.buffer_start_frame + (frame_limit - CONTEXT_FRAMES - st.buffer_start_frame),
          audio_buffer :=
            st.audio_buffer.drop ((frame_limit - CONTEXT_FRAMES - st.buffer_start_frame) *
              SAMPLES_PER_FRAME),
          last_token := last_token }
      else
        { encoder_cursor := frame_limit, buffer_start_frame := frame_limit,
          audio_buffer := [], last_token := last_token }
    else
      { st with encoder_cursor := frame_limit, last_token := last_token }
  else st

/-! ## Transducer decoder: `asr/decoder/state.rs`, `asr/decoder/search.rs`,
`asr/decoder/session.rs`.  Scores are exact rationals; the joint network's
output state is opaque (a type parameter `σ`). -/

structure InferenceConfig where
  temperature : ℚ
  max_tokens_per_step : Nat
  beam_width : Nat
  min_blank_margin : ℚ
  hotword_boost : ℚ
  hotwords : List String
  deriving DecidableEq

/-- `normalized_temperature` from `asr/decoder/state.rs`. -/
def normalized_temperature (config : InferenceConfig) : ℚ :=
  if config.temperature ≤ 0 then 1 else config.temperature

/-- Hotword boost for vocabulary index `i`
(`mask.and_then(|m| m.get(i))`, add boost when true). -/
def boost_for (mask : Option (List Bool)) (boost : ℚ) (i : Nat) : ℚ :=
  match mask with
  | none => 0
  | some m =>
    match m.get? i with
    | some true => boost
    | _ => 0

/-- The non-blank candidates of `extract_top_tokens` after temperature scaling
and hotword boost (`enumerate`, filter out the blank index, map to scores). -/
def scored_tokens (vocab_logits : List ℚ) (temp : ℚ) (blank_idx : Nat)
    (mask : Option (List Bool)) (boost : ℚ) : List (Nat × ℚ) :=
  (vocab_logits.enum.filter (fun p => p.1 != blank_idx)).map
    (fun p => (p.1, p.2 / temp + boost_for mask boost p.1))

/-- Descending insertion by score, modelling `sort_by(|a, b| b.1.total_cmp(&a.1))`. -/
def insert_desc (p : Nat × ℚ) : List (Nat × ℚ) → List (Nat × ℚ)
  | [] => [p]
  | q :: rest => if q.2 < p.2 then p :: q :: rest else q :: insert_desc p rest

def sort_desc : List (Nat × ℚ) → List (Nat × ℚ)
  | [] => []
  | p :: rest => insert_desc p (sort_desc rest)

/-- `extract_top_tokens` from `asr/decoder/state.rs`.  The `is_finite` guards
hold identically in the rational model; the margin filter keeps a candidate
iff `min_blank_margin ≤ 0` or its score beats blank by at least the margin. -/
def extract_top_tokens (vocab_logits : List ℚ) (blank_score temp : ℚ)
    (config : InferenceConfig) (beam_width : Nat) (blank_idx : Nat)
    (mask : Option (List Bool)) (boost : ℚ) : List (Nat × ℚ) :=
  let kept := (scored_tokens vocab_logits temp blank_idx mask boost).filter
    (fun p => decide (config.min_blank_margin ≤ 0) ||
      decide (config.min_blank_margin ≤ p.2 - blank_score))
  (sort_desc kept).take (max beam_width 1)

structure StepScores (σ : Type) where
  blank_score : ℚ
  top_tokens : List (Nat × ℚ)
  output_state : σ

structure GreedySt (σ : Type) where
  state : σ
  last_token : Int
  tokens : List Int
  timestamps : List Nat

/-- The scoring part of `DecoderSession::step_scores` (session.rs lines
79-103): slice the joint logits to the vocabulary size (dropping TDT duration
logits), scale blank by temperature, extract the top tokens.  The new decoder
state returned by the joint network is opaque (`new_state`). -/
def mk_step_scores {σ : Type} (logits : List ℚ) (vocab_size : Nat)
    (config : InferenceConfig) (beam_width : Nat) (blank_idx : Nat)
    (mask : Option (List Bool)) (boost : ℚ) (new_state : σ) : StepScores σ :=
  let slice := if vocab_size < logits.length then logits.take vocab_size else logits
  let t := normalized_temperature config
  let bs := slice.getD blank_idx 0 / t
  { blank_score := bs,
    top_tokens := extract_top_tokens slice bs t config beam_width blank_idx mask boost,
    output_state := new_state }

/-- One inner iteration of `decode_sequence_greedy` (search.rs lines 20-41):
pick the top token if it beats blank, else blank; on blank, break without
touching the state, the emitted tokens, or the last-token register.  The
returned flag is true when the iteration broke on blank. -/
def greedy_step {σ : Type} (blank_idx : Int) (s : StepScores σ) (t : Nat)
    (g : GreedySt σ) : GreedySt σ × Bool :=
  let token :=
    match s.top_tokens.head? with
    | some c => if s.blank_score < c.2 then (c.1 : Int) else blank_idx
    | none => blank_idx
  if token = blank_idx then (g, true)
  else
    ({ state := s.output_state, last_token := token, tokens := g.tokens ++ [token],
       timestamps := g.timestamps ++ [t] }, false)

/-! ## Linear resampler: `asr/audio_io.rs` -/

/-- `resample_linear` from `asr/audio_io.rs`, with `f32`/`f64` arithmetic
modelled exactly over `ℚ`.  `ceil().max(1.0) as usize` is `(max ⌈·⌉ 1).toNat`;
`unwrap_or_default()` is 0; `unwrap_or(current)` keeps the current sample. -/
def resample_linear (input : List ℚ) (from_sr to_sr : Nat) : List ℚ :=
  if from_sr = 0 ∨ to_sr = 0 ∨ input.isEmpty then []
  else
    let out_len : Nat := (max ⌈((input.length : ℚ) * (to_sr : ℚ)) / (from_sr : ℚ)⌉ 1).toNat
    let step : ℚ := (from_sr : ℚ) / (to_sr : ℚ)
    (List.range out_len).map (fun (i : Nat) =>
      let pos : ℚ := (i : ℚ) * step
      let idx : Nat := ⌊pos⌋.toNat
      let frac : ℚ := pos - (idx : ℚ)
      let current := input.getD idx 0
      let next := (input.get? (idx + 1)).getD current
      current + (next - current) * frac)

/-! ## Vocabulary loading: `asr/recognizer/model.rs::load_vocab` -/

/-- Rust `split_whitespace`: split at whitespace runs, no empty items.  The
accumulator holds the current item's characters in reverse. -/
def split_ws_go : List Char → List Char → List (List Char)
  | [], cur => if cur.isEmpty then [] else [cur.reverse]
  | c :: rest, cur =>
    if c.isWhitespace then
      if cur.isEmpty then split_ws_go rest []
      else cur.reverse :: split_ws_go rest []
    else split_ws_go rest (c :: cur)

def split_ws (s : String) : List String :=
  (split_ws_go s.data []).map String.mk

/-- Rust `str::parse::<usize>()` on the digit strings a vocab file holds: all
characters must be decimal digits.  (Rust additionally tolerates a leading
`+`, which no vocab file uses.) -/
def parse_nat_go : List Char → Nat → Option Nat
  | [], acc => some acc
  | c :: rest, acc =>
    if c.isDigit then parse_nat_go rest (acc * 10 + (c.toNat - '0'.toNat)) else none

def parse_nat (s : String) : Option Nat :=
  match s.data with
  | [] => none
  | l => parse_nat_go l 0

/-- `t.replace('\u{2581}', " ")`: the space marker becomes an ASCII space. -/
def replace_space_marker (s : String) : String :=
  String.mk (s.data.map (fun c => if c = '▁' then ' ' else c))

/-- One line of the vocab file: first token (marker-normalized) and numeric id;
lines with fewer than two fields or a non-numeric id are skipped
(`filter_map` with `?`).  Rust's `usize` parse accepts a leading `+`, which no
claim input uses. -/
def parse_vocab_line (l : String) : Option (String × Nat) :=
  match split_ws l with
  | t0 :: t1 :: _ =>
    match parse_nat t1 with
    | some i => some (replace_space_marker t0, i)
    | none => none
  | _ => none

def vocab_entries (lines : List String) : List (String × Nat) :=
  lines.filterMap parse_vocab_line

/-- The blank id: `blank_idx` is overwritten by each `<blk>` entry in file
order, so it ends as the id of the last one. -/
def blank_of (entries : List (String × Nat)) : Option Nat :=
  ((entries.filter (fun e => e.1 == "<blk>")).getLast?).map (fun e => e.2)

def max_id (entries : List (String × Nat)) : Nat :=
  (entries.map (fun e => e.2)).foldl max 0

/-- The vocab array: `vec![String::new(); max_id + 1]` then `vocab[i] = t`
for every entry in file order. -/
def vocab_array (es : List (String × Nat)) : List String :=
  es.foldl (fun v e => v.set e.2 e.1) (List.replicate (max_id es + 1) "")

/-- `AsrModel::load_vocab`, over the lines of `vocab.txt`: build the vocab
array sized to max-id + 1 (absent ids stay empty), fail without a `<blk>`
entry. -/
def load_vocab (lines : List String) : Except String (List String × Nat) :=
  match blank_of (vocab_entries lines) with
  | some idx => Except.ok (vocab_array (vocab_entries lines), idx)
  | none => Except.error "Missing <blk>"

example : load_vocab ["hello 0", "<blk> 1"] = Except.ok (["hello", "<blk>"], 1) := by rfl

example : load_vocab ["hello 0", "x 2"] = Except.error "Missing <blk>" := by rfl

/-! ## Scenario inputs and measures -/

/-- The "hello" word of the spec's stable-prefix scenario (0-200 ms), with
arbitrary end frame and last token id. -/
def hello_w (ef : Nat) (tid : Int) : WordWithTime := ⟨"hello", 0, 200, ef, tid⟩

/-- The "it" word of the scenario (201-400 ms). -/
def it_w (ef : Nat) (tid : Int) : WordWithTime := ⟨"it", 201, 400, ef, tid⟩

/-- The "there" word of the scenario (201-400 ms). -/
def there_w (ef : Nat) (tid : Int) : WordWithTime := ⟨"there", 201, 400, ef, tid⟩

/-- Unicode-scalar length of the committed text, as `take_newly_committed`
measures it (`words_to_text(&self.committed, &[]).chars().count()`). -/
def committed_char_len (st : WordHypothesisManager) : Nat :=
  (words_to_text st.committed []).data.length

/-- The reachable-state invariant of the emitted-length counter: it never
exceeds the committed text's character length. -/
def emitted_len_inv (st : WordHypothesisManager) : Prop :=
  st.emitted_committed_len ≤ committed_char_len st

/-! ## Helper lemmas -/

theorem commit_to_cursor_le (st : DecodingSessionSt) (frame_limit : Nat) (tok : Int) :
    st.encoder_cursor ≤ (commit_to st frame_limit tok).encoder_cursor := by
  unfold commit_to
  split
  · split
    · split <;> simp <;> omega
    · simp; omega
  · exact le_refl _

theorem foldl_commit_to_cursor_le (calls : List (Nat × Int)) :
    ∀ st : DecodingSessionSt,
      st.encoder_cursor ≤ (calls.foldl (fun s c => commit_to s c.1 c.2) st).encoder_cursor := by
  induction calls with
  | nil => intro st; exact le_refl _
  | cons c rest ih =>
    intro st
    exact le_trans (commit_to_cursor_le st c.1 c.2) (ih (commit_to st c.1 c.2))

/-! ## Claim theorems -/

/-- C9: `commit_to` with `frame_limit ≤ encoder_cursor` leaves every field of
the decoding session unchanged; the encoder cursor never decreases (also
across arbitrary call sequences), and the last-token register changes only on
a strictly advancing commit. -/
theorem commit_to_non_advancing_noop (st : DecodingSessionSt) (frame_limit : Nat) (tok : Int) :
    (frame_limit ≤ st.encoder_cursor → commit_to st frame_limit tok = st) ∧
    st.encoder_cursor ≤ (commit_to st frame_limit tok).encoder_cursor ∧
    ((commit_to st frame_limit tok).last_token ≠ st.last_token →
      st.encoder_cursor < frame_limit) ∧
    (∀ calls : List (Nat × Int),
      st.encoder_cursor ≤ (calls.foldl (fun s c => commit_to s c.1 c.2) st).encoder_cursor) := by
  refine ⟨?_, commit_to_cursor_le st frame_limit tok, ?_, fun calls => foldl_commit_to_cursor_le calls st⟩
  · intro hle
    unfold commit_to
    rw [if_neg (by omega)]
  · intro hne
    by_contra hnot
    have : commit_to st frame_limit tok = st := by
      unfold commit_to
      rw [if_neg (by omega)]
    rw [this] at hne
    exact hne rfl

/-- C9 witness: a non-advancing commit on a concrete session is the identity. -/
theorem commit_to_non_advancing_noop_w :
    commit_to ⟨3, 0, [], 7⟩ 2 5 = ⟨3, 0, [], 7⟩ :=
  (commit_to_non_advancing_noop ⟨3, 0, [], 7⟩ 2 5).1 (by decide)

/-- C6 counterexample: the tokens built by `advance_segment` have
`end_frame = start_frame + 2`, so the claimed `end ∈ {start, start+1}` fails
already for a single decoded token. -/
theorem draft_tokens_end_frame_cex :
    ¬ (∀ vocab cursor ids ts, ∀ tok ∈ draft_tokens_of vocab cursor ids ts,
        tok.end_frame = tok.start_frame ∨ tok.end_frame = tok.start_frame + 1) := by
  intro h
  have hmem : (⟨5, "", 0, 2⟩ : TokenWithTime) ∈ draft_tokens_of ["a"] 0 [5] [0] := by decide
  have := h ["a"] 0 [5] [0] ⟨5, "", 0, 2⟩ hmem
  simp at this

/-- C6 (amended): every token-with-time produced by `advance_segment` has an
end frame exactly two greater than its start frame. -/
theorem draft_tokens_end_frame (vocab : List String) (cursor : Nat) (ids : List Int)
    (ts : List Nat) :
    ∀ tok ∈ draft_tokens_of vocab cursor ids ts, tok.end_frame = tok.start_frame + 2 := by
  intro tok hmem
  simp only [draft_tokens_of, List.mem_map] at hmem
  obtain ⟨p, _, rfl⟩ := hmem
  rfl

/-- C6 witness: the amended end-frame relation at a concrete decoded token. -/
theorem draft_tokens_end_frame_w :
    (⟨5, "", 0, 2⟩ : TokenWithTime).end_frame = (⟨5, "", 0, 2⟩ : TokenWithTime).start_frame + 2 :=
  draft_tokens_end_frame ["a"] 0 [5] [0] ⟨5, "", 0, 2⟩ (by decide)

/-- C3: with `min_blank_margin > 0`, when every non-blank candidate's score
(after temperature scaling and hotword boost) beats the blank score by less
than the margin, the margin filter leaves no candidate, so the greedy step
emits blank and leaves the decoder state, the emitted token list, and the
last-token register unchanged. -/
theorem blank_margin_gate {σ : Type} (logits : List ℚ) (vocab_size : Nat)
    (config : InferenceConfig) (beam_width : Nat) (blank_idx : Nat)
    (mask : Option (List Bool)) (new_state : σ) (g : GreedySt σ) (t : Nat)
    (hm : 0 < config.min_blank_margin)
    (hlead : ∀ p ∈ scored_tokens
        (if vocab_size < logits.length then logits.take vocab_size else logits)
        (normalized_temperature config) blank_idx mask config.hotword_boost,
        p.2 - (mk_step_scores logits vocab_size config beam_width blank_idx mask
          config.hotword_boost new_state).blank_score < config.min_blank_margin) :
    (mk_step_scores logits vocab_size config beam_width blank_idx mask
        config.hotword_boost new_state).top_tokens = [] ∧
    greedy_step (blank_idx : Int)
      (mk_step_scores logits vocab_size config beam_width blank_idx mask
        config.hotword_boost new_state) t g = (g, true) := by
  have htop : (mk_step_scores logits vocab_size config beam_width blank_idx mask
      config.hotword_boost new_state).top_tokens = [] := by
    simp only [mk_step_scores, extract_top_tokens]
    have hkept : (scored_tokens
        (if vocab_size < logits.length then logits.take vocab_size else logits)
        (normalized_temperature config) blank_idx mask config.hotword_boost).filter
        (fun p => decide (config.min_blank_margin ≤ 0) ||
          decide (config.min_blank_margin ≤ p.2 -
            ((if vocab_size < logits.length then logits.take vocab_size
              else logits).getD blank_idx 0 / normalized_temperature config))) = [] := by
      refine List.filter_eq_nil_iff.mpr ?_
      intro p hp
      have h1 : ¬ config.min_blank_margin ≤ 0 := not_le.mpr hm
      have h2 := hlead p hp
      simp only [mk_step_scores] at h2
      simp only [Bool.or_eq_true, decide_eq_true_eq]
      push_neg
      exact ⟨hm, h2⟩
    rw [hkept]
    simp [sort_desc, List.take_nil]
  refine ⟨htop, ?_⟩
  simp [greedy_step, htop]

/-- C3 witness: `min_blank_margin = 1`, blank logit 0, best non-blank logit
1/2 (temperature 1, no hotwords): the step emits blank and changes nothing. -/
theorem blank_margin_gate_w :
    (mk_step_scores (σ := Nat) [0, 1/2] 2 ⟨1, 10, 1, 1, 0, []⟩ 1 0 none 0 17).top_tokens = [] ∧
    greedy_step ((0 : Nat) : Int)
      (mk_step_scores (σ := Nat) [0, 1/2] 2 ⟨1, 10, 1, 1, 0, []⟩ 1 0 none 0 17) 4
      ⟨17, 0, [], []⟩ = (⟨17, 0, [], []⟩, true) :=
  blank_margin_gate [0, 1/2] 2 ⟨1, 10, 1, 1, 0, []⟩ 1 0 none 17 ⟨17, 0, [], []⟩ 4
    (by norm_num)
    (by
      intro p hp
      norm_num [scored_tokens, boost_for, List.enum, normalized_temperature] at hp
      norm_num [mk_step_scores, normalized_temperature, hp, List.getD_cons_zero])

/-- C2 counterexample: the committed-before-draft invariant does not survive
`update_draft` for arbitrary word lists.  Three identical drafts commit
"hello" (t1 = 200); a fourth draft containing a word with t0 = 100 is then
stored unfiltered, so a committed word's t1_ms is not below a draft word's
t0_ms. -/
theorem committed_before_draft_cex :
    ∃ c ∈ (run_drafts (WordHypothesisManager.new ⟨3, 0, 100, 0, 4000⟩)
        [([⟨"hello", 0, 200, 2, 10⟩], 200), ([⟨"hello", 0, 200, 2, 10⟩], 200),
         ([⟨"hello", 0, 200, 2, 10⟩], 200), ([⟨"b", 100, 150, 1, 9⟩], 200)]).committed,
      ∃ d ∈ (run_drafts (WordHypothesisManager.new ⟨3, 0, 100, 0, 4000⟩)
        [([⟨"hello", 0, 200, 2, 10⟩], 200), ([⟨"hello", 0, 200, 2, 10⟩], 200),
         ([⟨"hello", 0, 200, 2, 10⟩], 200), ([⟨"b", 100, 150, 1, 9⟩], 200)]).current_draft,
        ¬ c.t1_ms < d.t0_ms := by
  decide

/-- C2 (amended): immediately after an `update_draft` call that commits, the
word committed last (the commit boundary) has t1_ms strictly below the t0_ms
of every word left in the draft — incoming drafts are only filtered against
the boundary at commit time, not when stored. -/
theorem committed_before_draft_on_commit (st : WordHypothesisManager)
    (new_words : List WordWithTime) (a : Int) (st' : WordHypothesisManager)
    (frame : Nat) (tok : Int)
    (h : update_draft st new_words a = (st', some (frame, tok))) :
    ∃ last, st'.committed.getLast? = some last ∧
      ∀ w ∈ st'.current_draft, last.t1_ms < w.t0_ms := by
  unfold update_draft at h
  split at h
  case h_2 => simp at h
  case h_1 to_commit heq =>
    split at h
    case h_1 => simp at h
    case h_2 last hlast =>
      obtain ⟨rfl, -⟩ := Prod.mk.injEq .. ▸ h
      refine ⟨last, ?_, ?_⟩
      · show (st.committed ++ to_commit).getLast? = some last
        rw [List.getLast?_append, hlast]
        rfl
      · intro w hw
        have := (List.mem_filter.mp hw).2
        simpa using this

/-- C2 witness: the amended boundary invariant at the concrete three-draft
commit of "hello". -/
theorem committed_before_draft_on_commit_w :
    ∃ last,
      ((update_draft (run_drafts (WordHypothesisManager.new ⟨3, 0, 100, 0, 4000⟩)
          [([⟨"hello", 0, 200, 2, 10⟩], 200), ([⟨"hello", 0, 200, 2, 10⟩], 200)])
          [⟨"hello", 0, 200, 2, 10⟩, ⟨"there", 201, 400, 4, 12⟩] 400).1).committed.getLast? =
        some last ∧
      ∀ w ∈ ((update_draft (run_drafts (WordHypothesisManager.new ⟨3, 0, 100, 0, 4000⟩)
          [([⟨"hello", 0, 200, 2, 10⟩], 200), ([⟨"hello", 0, 200, 2, 10⟩], 200)])
          [⟨"hello", 0, 200, 2, 10⟩, ⟨"there", 201, 400, 4, 12⟩] 400).1).current_draft,
        last.t1_ms < w.t0_ms :=
  committed_before_draft_on_commit
    (run_drafts (WordHypothesisManager.new ⟨3, 0, 100, 0, 4000⟩)
      [([⟨"hello", 0, 200, 2, 10⟩], 200), ([⟨"hello", 0, 200, 2, 10⟩], 200)])
    [⟨"hello", 0, 200, 2, 10⟩, ⟨"there", 201, 400, 4, 12⟩] 400
    ((update_draft (run_drafts (WordHypothesisManager.new ⟨3, 0, 100, 0, 4000⟩)
        [([⟨"hello", 0, 200, 2, 10⟩], 200), ([⟨"hello", 0, 200, 2, 10⟩], 200)])
        [⟨"hello", 0, 200, 2, 10⟩, ⟨"there", 201, 400, 4, 12⟩] 400).1)
    2 10 (by decide)

/-- C5: with L = 0, H = 3, M = 0, the drafts [hello,it], [hello,it],
[hello,there] (each update's audio clock at least 200 ms and at most the
force-commit threshold) commit nothing on the first two updates; the third
commits exactly "hello", returns its end frame and last token id, and leaves
exactly "there" in the draft. -/
theorem three_draft_commit (bucket U a1 a2 a3 : Int) (ef_h ef_i ef_t : Nat)
    (id_h id_i id_t : Int) (hb : 0 < bucket)
    (h1 : 200 ≤ a1) (h1' : a1 ≤ U) (h2 : 200 ≤ a2) (h2' : a2 ≤ U)
    (h3 : 200 ≤ a3) (h3' : a3 ≤ U) :
    (update_draft (WordHypothesisManager.new ⟨3, 0, bucket, 0, U⟩)
        [hello_w ef_h id_h, it_w ef_i id_i] a1).2 = none ∧
    (update_draft (update_draft (WordHypothesisManager.new ⟨3, 0, bucket, 0, U⟩)
        [hello_w ef_h id_h, it_w ef_i id_i] a1).1
        [hello_w ef_h id_h, it_w ef_i id_i] a2).2 = none ∧
    update_draft (update_draft (update_draft (WordHypothesisManager.new ⟨3, 0, bucket, 0, U⟩)
        [hello_w ef_h id_h, it_w ef_i id_i] a1).1
        [hello_w ef_h id_h, it_w ef_i id_i] a2).1
        [hello_w ef_h id_h, there_w ef_t id_t] a3 =
      (⟨⟨3, 0, bucket, 0, U⟩, [hello_w ef_h id_h], [there_w ef_t id_t],
        [[it_w ef_i id_i], [it_w ef_i id_i], [there_w ef_t id_t]], 0⟩,
        some (ef_h, id_h)) := by
  have e1 : update_draft (WordHypothesisManager.new ⟨3, 0, bucket, 0, U⟩)
      [hello_w ef_h id_h, it_w ef_i id_i] a1 =
      (⟨⟨3, 0, bucket, 0, U⟩, [], [hello_w ef_h id_h, it_w ef_i id_i],
        [[hello_w ef_h id_h, it_w ef_i id_i]], 0⟩, none) := by
    have wc : words_to_commit_of (WordHypothesisManager.new ⟨3, 0, bucket, 0, U⟩)
        [hello_w ef_h id_h, it_w ef_i id_i] a1 = none := by
      simp [words_to_commit_of, check_and_commit, stable_for, pushed_history,
        check_force_commit, WordHypothesisManager.new, hello_w]
      omega
    unfold update_draft
    rw [wc]
    simp [pushed_history, WordHypothesisManager.new]
  have e2 : update_draft
      (⟨⟨3, 0, bucket, 0, U⟩, [], [hello_w ef_h id_h, it_w ef_i id_i],
        [[hello_w ef_h id_h, it_w ef_i id_i]], 0⟩ : WordHypothesisManager)
      [hello_w ef_h id_h, it_w ef_i id_i] a2 =
      (⟨⟨3, 0, bucket, 0, U⟩, [], [hello_w ef_h id_h, it_w ef_i id_i],
        [[hello_w ef_h id_h, it_w ef_i id_i], [hello_w ef_h id_h, it_w ef_i id_i]], 0⟩,
        none) := by
    have wc : words_to_commit_of
        (⟨⟨3, 0, bucket, 0, U⟩, [], [hello_w ef_h id_h, it_w ef_i id_i],
          [[hello_w ef_h id_h, it_w ef_i id_i]], 0⟩ : WordHypothesisManager)
        [hello_w ef_h id_h, it_w ef_i id_i] a2 = none := by
      simp [words_to_commit_of, check_and_commit, stable_for, pushed_history,
        check_force_commit, hello_w]
      omega
    unfold update_draft
    rw [wc]
    simp [pushed_history]
  have e3 : update_draft
      (⟨⟨3, 0, bucket, 0, U⟩, [], [hello_w ef_h id_h, it_w ef_i id_i],
        [[hello_w ef_h id_h, it_w ef_i id_i], [hello_w ef_h id_h, it_w ef_i id_i]],
        0⟩ : WordHypothesisManager)
      [hello_w ef_h id_h, there_w ef_t id_t] a3 =
      (⟨⟨3, 0, bucket, 0, U⟩, [hello_w ef_h id_h], [there_w ef_t id_t],
        [[it_w ef_i id_i], [it_w ef_i id_i], [there_w ef_t id_t]], 0⟩,
        some (ef_h, id_h)) := by
    have hst : stable_for
        (⟨⟨3, 0, bucket, 0, U⟩, [], [hello_w ef_h id_h, it_w ef_i id_i],
          [[hello_w ef_h id_h, it_w ef_i id_i], [hello_w ef_h id_h, it_w ef_i id_i]],
          0⟩ : WordHypothesisManager)
        [hello_w ef_h id_h, there_w ef_t id_t] = [hello_w ef_h id_h] := by
      simp [stable_for, pushed_history, longest_stable_prefix_words, lsp_go, lsp_step,
        List.mapM.loop, WordWithTime.matches_in_time_bucket, hello_w, it_w, there_w]
    have wc : words_to_commit_of
        (⟨⟨3, 0, bucket, 0, U⟩, [], [hello_w ef_h id_h, it_w ef_i id_i],
          [[hello_w ef_h id_h, it_w ef_i id_i], [hello_w ef_h id_h, it_w ef_i id_i]],
          0⟩ : WordHypothesisManager)
        [hello_w ef_h id_h, there_w ef_t id_t] a3 = some [hello_w ef_h id_h] := by
      unfold words_to_commit_of
      rw [hst]
      simp [check_and_commit, hello_w, List.takeWhile_cons]
      rw [if_neg (by omega), if_pos (by omega)]
    unfold update_draft
    rw [wc]
    simp [pushed_history, hello_w, it_w, there_w]
  refine ⟨by rw [e1], ?_, ?_⟩
  · rw [e1]
    dsimp only
    rw [e2]
  · rw [e1]
    dsimp only
    rw [e2]
    dsimp only
    exact e3

/-- C5 witness: the scenario at bucket 100 ms, force threshold 4000 ms, audio
clocks 200/200/400 ms, and concrete frames and token ids. -/
theorem three_draft_commit_w :
    (update_draft (WordHypothesisManager.new ⟨3, 0, 100, 0, 4000⟩)
        [hello_w 2 10, it_w 4 11] 200).2 = none ∧
    (update_draft (update_draft (WordHypothesisManager.new ⟨3, 0, 100, 0, 4000⟩)
        [hello_w 2 10, it_w 4 11] 200).1 [hello_w 2 10, it_w 4 11] 200).2 = none ∧
    update_draft (update_draft (update_draft (WordHypothesisManager.new ⟨3, 0, 100, 0, 4000⟩)
        [hello_w 2 10, it_w 4 11] 200).1 [hello_w 2 10, it_w 4 11] 200).1
        [hello_w 2 10, there_w 4 12] 400 =
      (⟨⟨3, 0, 100, 0, 4000⟩, [hello_w 2 10], [there_w 4 12],
        [[it_w 4 11], [it_w 4 11], [there_w 4 12]], 0⟩, some (2, 10)) :=
  three_draft_commit 100 4000 200 200 400 2 4 4 10 11 12 (by decide) (by decide) (by decide)
    (by decide) (by decide) (by decide) (by decide)

/-- C1: evaluation of the decode loop's patch emission at the spec's own
scenario ("hello" committed and emitted, then "world" committed).  The second
stable patch carries `start = 0, end = 0` — pipeline.rs hardcodes both fields
to 0 — with `text = " world"`, not `start = end = 5` as the spec requires. -/
theorem stable_patch_start_eval :
    (run_ticks (WordHypothesisManager.new ⟨3, 0, 100, 0, 4000⟩)
      [([⟨"hello", 0, 200, 2, 10⟩], 200), ([⟨"hello", 0, 200, 2, 10⟩], 200),
       ([⟨"hello", 0, 200, 2, 10⟩], 200), ([⟨"world", 201, 400, 4, 11⟩], 400),
       ([⟨"world", 201, 400, 4, 11⟩], 400), ([⟨"world", 201, 400, 4, 11⟩], 400)]).2 =
      [none, none, some ⟨0, 0, "hello", true⟩, none, none, some ⟨0, 0, " world", true⟩] := by
  decide

theorem wtt_go_length_ge (ws : List WordWithTime) :
    ∀ (acc : String) (first : Bool), acc.data.length ≤ (wtt_go ws acc first).data.length := by
  induction ws with
  | nil => intro acc first; exact le_refl _
  | cons w rest ih =>
    intro acc first
    refine le_trans ?_ (ih (acc ++ (if first then "" else " ") ++ w.text) false)
    simp [String.data_append]

theorem wtt_go_length_mono (l : List WordWithTime) :
    ∀ (e : List WordWithTime) (acc : String) (first : Bool),
      (wtt_go l acc first).data.length ≤ (wtt_go (l ++ e) acc first).data.length := by
  induction l with
  | nil => intro e acc first; exact wtt_go_length_ge e acc first
  | cons w rest ih =>
    intro e acc first
    simpa [wtt_go] using ih e (acc ++ (if first then "" else " ") ++ w.text) false

theorem words_to_text_length_mono (c e : List WordWithTime) :
    (words_to_text c []).data.length ≤ (words_to_text (c ++ e) []).data.length := by
  simpa [words_to_text] using wtt_go_length_mono c e "" true

theorem trim_chars_eq_nil_iff (l : List Char) :
    trim_chars l = [] ↔ ∀ c ∈ l, c.isWhitespace = true := by
  constructor
  · intro h c hc
    have h1 : (l.dropWhile Char.isWhitespace).reverse.dropWhile Char.isWhitespace = [] := by
      simpa [trim_chars] using h
    have h2 : ∀ a ∈ l.dropWhile Char.isWhitespace, a.isWhitespace = true := by
      intro a ha
      exact List.dropWhile_eq_nil_iff.mp h1 a (List.mem_reverse.mpr ha)
    have hsplit : l.takeWhile Char.isWhitespace ++ l.dropWhile Char.isWhitespace = l :=
      List.takeWhile_append_dropWhile _ _
    rw [← hsplit] at hc
    rcases List.mem_append.mp hc with htk | hdr
    · exact List.mem_takeWhile_imp htk
    · exact h2 c hdr
  · intro h
    have h1 : l.dropWhile Char.isWhitespace = [] := List.dropWhile_eq_nil_iff.mpr h
    simp [trim_chars, h1]

/-- C10: `take_newly_committed` advances the emitted-length counter to the
full character length of the committed text on every call from a reachable
state (the counter invariant holds initially and is preserved by every
operation), and it returns a suffix iff the committed text grew and the new
suffix contains a non-whitespace character; the returned suffix is exactly
the newly committed characters. -/
theorem take_newly_committed_spec (cfg : WordHypothesisConfig)
    (st : WordHypothesisManager) (ws : List WordWithTime) (a : Int) :
    emitted_len_inv (WordHypothesisManager.new cfg) ∧
    (emitted_len_inv st → emitted_len_inv (update_draft st ws a).1) ∧
    (emitted_len_inv st → emitted_len_inv (take_newly_committed st).1) ∧
    (emitted_len_inv st →
      (take_newly_committed st).1.emitted_committed_len = committed_char_len st ∧
      ((take_newly_committed st).2.isSome ↔
        st.emitted_committed_len < committed_char_len st ∧
        ∃ c ∈ (words_to_text st.committed []).data.drop st.emitted_committed_len,
          c.isWhitespace = false) ∧
      (∀ s, (take_newly_committed st).2 = some s →
        s = String.mk ((words_to_text st.committed []).data.drop st.emitted_committed_len))) := by
  have hupd : emitted_len_inv st → emitted_len_inv (update_draft st ws a).1 := by
    intro hinv
    unfold update_draft
    split
    case h_2 =>
      simpa [emitted_len_inv, committed_char_len] using hinv
    case h_1 to_commit heq =>
      split
      case h_1 =>
        simpa [emitted_len_inv, committed_char_len] using hinv
      case h_2 last hlast =>
        refine le_trans ?_ (words_to_text_length_mono st.committed to_commit)
        exact hinv
  have hmain : emitted_len_inv st →
      (take_newly_committed st).1.emitted_committed_len = committed_char_len st ∧
      ((take_newly_committed st).2.isSome ↔
        st.emitted_committed_len < committed_char_len st ∧
        ∃ c ∈ (words_to_text st.committed []).data.drop st.emitted_committed_len,
          c.isWhitespace = false) ∧
      (∀ s, (take_newly_committed st).2 = some s →
        s = String.mk ((words_to_text st.committed []).data.drop st.emitted_committed_len)) := by
    intro hinv
    unfold take_newly_committed
    by_cases hlt : st.emitted_committed_len < (words_to_text st.committed []).data.length
    · rw [if_pos hlt]
      by_cases htr :
          (trim_chars ((words_to_text st.committed []).data.drop
            st.emitted_committed_len)).isEmpty
      · rw [if_pos htr]
        refine ⟨rfl, ?_, ?_⟩
        · simp only [Option.isSome_none, Bool.false_eq_true, false_iff]
          rintro ⟨-, c, hc, hws⟩
          have hall := (trim_chars_eq_nil_iff _).mp (List.isEmpty_iff.mp htr)
          rw [hall c hc] at hws
          exact Bool.true_eq_false.mp hws
        · intro s hs
          exact absurd hs (by simp)
      · rw [if_neg htr]
        refine ⟨rfl, ?_, ?_⟩
        · simp only [Option.isSome_some, eq_self_iff_true, true_iff]
          refine ⟨hlt, ?_⟩
          by_contra hnone
          push_neg at hnone
          refine htr (List.isEmpty_iff.mpr ((trim_chars_eq_nil_iff _).mpr ?_))
          intro c hc
          have := hnone c hc
          exact Bool.of_not_eq_false this
        · intro s hs
          simpa using hs.symm
    · rw [if_neg hlt]
      have heq : st.emitted_committed_len = committed_char_len st :=
        le_antisymm hinv (not_lt.mp hlt)
      refine ⟨heq, ?_, ?_⟩
      · simp only [Option.isSome_none, Bool.false_eq_true, false_iff]
        rintro ⟨hlt', -⟩
        exact hlt hlt'
      · intro s hs
        exact absurd hs (by simp)
  have htake : emitted_len_inv st → emitted_len_inv (take_newly_committed st).1 := by
    intro hinv
    have h1 := (hmain hinv).1
    have h2 : committed_char_len (take_newly_committed st).1 = committed_char_len st := by
      unfold take_newly_committed
      by_cases hlt : st.emitted_committed_len < (words_to_text st.committed []).data.length
      · rw [if_pos hlt]
        by_cases htr : (trim_chars ((words_to_text st.committed []).data.drop
            st.emitted_committed_len)).isEmpty
        · rw [if_pos htr]
          rfl
        · rw [if_neg htr]
          rfl
      · rw [if_neg hlt]
    unfold emitted_len_inv
    rw [h1, h2]
  exact ⟨Nat.zero_le _, hupd, htake, hmain⟩

/-- C10 witness: from a reachable state with "hello" committed and nothing
emitted yet, the counter advances to 5 and the suffix "hello" is returned. -/
theorem take_newly_committed_spec_w :
    (take_newly_committed ⟨⟨3, 0, 100, 0, 4000⟩, [⟨"hello", 0, 200, 2, 10⟩], [], [], 0⟩).1.emitted_committed_len =
      committed_char_len ⟨⟨3, 0, 100, 0, 4000⟩, [⟨"hello", 0, 200, 2, 10⟩], [], [], 0⟩ :=
  ((take_newly_committed_spec ⟨3, 0, 100, 0, 4000⟩
      ⟨⟨3, 0, 100, 0, 4000⟩, [⟨"hello", 0, 200, 2, 10⟩], [], [], 0⟩ [] 0).2.2.2
    (by show _ ≤ committed_char_len _; decide)).1

theorem foldl_set_length (es : List (String × Nat)) :
    ∀ v : List String, (es.foldl (fun v e => v.set e.2 e.1) v).length = v.length := by
  induction es with
  | nil => intro v; rfl
  | cons e rest ih =>
    intro v
    rw [List.foldl_cons, ih (v.set e.2 e.1), List.length_set]

theorem foldl_set_get_ne (es : List (String × Nat)) :
    ∀ (v : List String) (j : Nat), (∀ e ∈ es, e.2 ≠ j) →
      (es.foldl (fun v e => v.set e.2 e.1) v)[j]? = v[j]? := by
  induction es with
  | nil => intro v j _; rfl
  | cons e rest ih =>
    intro v j hne
    rw [List.foldl_cons, ih (v.set e.2 e.1) j (fun x hx => hne x (List.mem_cons_of_mem e hx)),
      List.getElem?_set_ne (hne e (List.mem_cons_self e rest))]

/-- C8: vocabulary loading fails iff no parsed entry carries the token
`<blk>`; on success the array has length max-id + 1, ids absent from the file
map to the empty string, and the blank index is an id listed for `<blk>`. -/
theorem load_vocab_spec (lines : List String) :
    ((∃ msg, load_vocab lines = Except.error msg) ↔
      ∀ e ∈ vocab_entries lines, e.1 ≠ "<blk>") ∧
    (∀ v b, load_vocab lines = Except.ok (v, b) →
      v.length = max_id (vocab_entries lines) + 1 ∧
      (∀ j, j < v.length → (∀ e ∈ vocab_entries lines, e.2 ≠ j) → v[j]? = some "") ∧
      ∃ e ∈ vocab_entries lines, e.1 = "<blk>" ∧ e.2 = b) := by
  constructor
  · cases hb : blank_of (vocab_entries lines) with
    | some idx =>
      have hload : load_vocab lines = Except.ok (vocab_array (vocab_entries lines), idx) := by
        unfold load_vocab
        rw [hb]
      refine iff_of_false (by simp [hload]) ?_
      intro hall
      obtain ⟨e, hlast, -⟩ := Option.map_eq_some'.mp hb
      have hf := List.mem_filter.mp (List.mem_of_getLast?_eq_some hlast)
      exact hall e hf.1 (by simpa using hf.2)
    | none =>
      have hload : load_vocab lines = Except.error "Missing <blk>" := by
        unfold load_vocab
        rw [hb]
      refine iff_of_true ⟨"Missing <blk>", hload⟩ ?_
      have hfil : (vocab_entries lines).filter (fun e => e.1 == "<blk>") = [] :=
        List.getLast?_eq_none_iff.mp (Option.map_eq_none'.mp hb)
      intro e he
      have := List.filter_eq_nil_iff.mp hfil e he
      simpa using this
  · intro v b hok
    unfold load_vocab at hok
    cases hb : blank_of (vocab_entries lines) with
    | none => rw [hb] at hok; exact absurd hok (by simp)
    | some idx =>
      rw [hb] at hok
      have hpair : (vocab_array (vocab_entries lines), idx) = (v, b) := by
        simpa using hok
      obtain ⟨hv, hidx⟩ := Prod.mk.injEq .. ▸ hpair
      refine ⟨?_, ?_, ?_⟩
      · rw [← hv]
        unfold vocab_array
        rw [foldl_set_length, List.length_replicate]
      · intro j hj hnone
        rw [← hv] at hj ⊢
        unfold vocab_array at hj ⊢
        rw [foldl_set_get_ne _ _ _ hnone, List.getElem?_replicate, if_pos ?_]
        rw [foldl_set_length, List.length_replicate] at hj
        exact hj
      · obtain ⟨e, hlast, he2⟩ := Option.map_eq_some'.mp hb
        have hf := List.mem_filter.mp (List.mem_of_getLast?_eq_some hlast)
        exact ⟨e, hf.1, by simpa using hf.2, by rw [← hidx]; exact he2⟩

/-- C8 witness: a two-line vocab file listing ids 0 and 1 with `<blk>` at
id 1 loads successfully and the array length is max-id + 1 = 2. -/
theorem load_vocab_spec_w :
    (["hello", "<blk>"] : List String).length =
      max_id (vocab_entries ["hello 0", "<blk> 1"]) + 1 :=
  ((load_vocab_spec ["hello 0", "<blk> 1"]).2 ["hello", "<blk>"] 1 (by rfl)).1

theorem t2w_loop_eq_filterMap (rest : List TokenWithTime) :
    ∀ cur words, t2w_loop rest cur words =
      words ++ (group_go rest cur).filterMap finalize_word := by
  induction rest with
  | nil =>
    intro cur words
    by_cases hc : cur.isEmpty
    · simp [t2w_loop, group_go, hc]
    · simp only [t2w_loop, group_go, hc, if_false, Bool.false_eq_true]
      cases hf : finalize_word cur <;> simp [hf]
  | cons token rest ih =>
    intro cur words
    by_cases hc : ((starts_with_space token || cur.isEmpty) && !cur.isEmpty) = true
    · simp only [t2w_loop, group_go, hc, if_true]
      cases hf : finalize_word cur with
      | some w => simp [hf, ih, List.filterMap_cons]
      | none => simp [hf, ih, List.filterMap_cons]
    · simp only [t2w_loop, group_go, hc, if_false, Bool.false_eq_true]
      exact ih (cur ++ [token]) words

theorem group_go_length (rest : List TokenWithTime) :
    ∀ cur, cur ≠ [] → (group_go rest cur).length = 1 + count_space_tokens rest := by
  induction rest with
  | nil =>
    intro cur hcur
    simp [group_go, List.isEmpty_iff, hcur, count_space_tokens]
  | cons token rest ih =>
    intro cur hcur
    have hne : cur.isEmpty = false := by simpa [List.isEmpty_iff] using hcur
    by_cases hs : starts_with_space token = true
    · simp only [group_go, hs, hne, Bool.or_false, Bool.not_false, Bool.and_true, if_true,
        Bool.true_or, List.length_cons]
      rw [ih [token] (by simp)]
      simp [count_space_tokens, List.filter_cons, hs]
      omega
    · have hs' : starts_with_space token = false := by simpa using hs
      simp only [group_go, hs', hne, Bool.false_or, Bool.not_false, Bool.and_true, if_false,
        Bool.false_eq_true]
      rw [ih (cur ++ [token]) (by simp)]
      simp [count_space_tokens, List.filter_cons, hs']

theorem filterMap_length_of_all_some (gs : List (List TokenWithTime))
    (h : ∀ g ∈ gs, finalize_word g ≠ none) :
    (gs.filterMap finalize_word).length = gs.length := by
  induction gs with
  | nil => rfl
  | cons g rest ih =>
    cases hf : finalize_word g with
    | none => exact absurd hf (h g (List.mem_cons_self g rest))
    | some w =>
      simp only [List.filterMap_cons, hf, List.length_cons]
      rw [ih (fun x hx => h x (List.mem_cons_of_mem g hx))]

/-- C7 (amended): when every maximal token group's concatenated text survives
trimming (no whitespace-only group), the number of words equals the number of
tokens whose text begins with the space marker, plus 1 iff the input is
nonempty and its first token does not begin with the space marker.
Whitespace-only groups are dropped by `finalize_word` and reduce the count. -/
theorem tokens_to_words_count (tokens : List TokenWithTime)
    (hfin : ∀ g ∈ word_groups tokens, finalize_word g ≠ none) :
    (tokens_to_words tokens).length =
      count_space_tokens tokens +
        (match tokens.head? with
         | some t => if starts_with_space t then 0 else 1
         | none => 0) := by
  cases tokens with
  | nil => rfl
  | cons t ts =>
    have hgroups : word_groups (t :: ts) = group_go ts [t] := by
      simp [word_groups, group_go]
    have hwords : tokens_to_words (t :: ts) = t2w_loop ts [t] [] := by
      simp [tokens_to_words, t2w_loop]
    rw [hwords, t2w_loop_eq_filterMap, List.nil_append,
      filterMap_length_of_all_some _ (by rw [← hgroups]; exact hfin),
      group_go_length ts [t] (by simp)]
    simp only [List.head?_cons]
    by_cases hs : starts_with_space t = true
    · simp [count_space_tokens, List.filter_cons, hs]
      omega
    · have hs' : starts_with_space t = false := by simpa using hs
      simp [count_space_tokens, List.filter_cons, hs']
      omega

/-- C7 witness: tokens " a", "b", " c" form two space-started groups, none
whitespace-only, giving 2 words = 2 space-marker tokens + 0. -/
theorem tokens_to_words_count_w :
    (tokens_to_words [⟨1, " a", 0, 2⟩, ⟨2, "b", 2, 4⟩, ⟨3, " c", 4, 6⟩]).length =
      count_space_tokens [⟨1, " a", 0, 2⟩, ⟨2, "b", 2, 4⟩, ⟨3, " c", 4, 6⟩] +
        (match ([⟨1, " a", 0, 2⟩, ⟨2, "b", 2, 4⟩, ⟨3, " c", 4, 6⟩] : List TokenWithTime).head? with
         | some t => if starts_with_space t then 0 else 1
         | none => 0) :=
  tokens_to_words_count [⟨1, " a", 0, 2⟩, ⟨2, "b", 2, 4⟩, ⟨3, " c", 4, 6⟩] (by decide)

/-- C7 counterexample: a single whitespace-only token " " starts with the
space marker, so the claim predicts one word, but `finalize_word` drops the
whitespace-only group and `tokens_to_words` returns none. -/
theorem tokens_to_words_count_cex :
    ¬ ((tokens_to_words [⟨1, " ", 0, 1⟩]).length =
        count_space_tokens [⟨1, " ", 0, 1⟩] +
          (match ([⟨1, " ", 0, 1⟩] : List TokenWithTime).head? with
           | some t => if starts_with_space t then 0 else 1
           | none => 0)) := by
  decide

/-- C4 counterexample: upsampling a one-sample input doubles it; the output is
[1, 1], not the one-sample output the claim requires. -/
theorem resample_linear_one_sample_cex :
    resample_linear [1] 16000 32000 ≠ [1] ∧ resample_linear [1] 16000 32000 = [1, 1] := by
  have h : resample_linear [1] 16000 32000 = [1, 1] := by
    unfold resample_linear
    rw [if_neg (by norm_num)]
    have harg : ((([1] : List ℚ).length : ℚ) * ((32000 : Nat) : ℚ)) / ((16000 : Nat) : ℚ) = 2 := by
      push_cast
      norm_num
    rw [harg]
    norm_num
    rw [show Int.toNat 2 = 2 from rfl]
    have hf2 : ⌊((2 : ℚ))⁻¹⌋ = 0 := by
      rw [Int.floor_eq_zero_iff]
      constructor <;> norm_num
    simp [List.range_succ, hf2]
  exact ⟨by rw [h]; simp, h⟩

/-- C4 (amended): empty input, or a zero source or target rate, yields empty
output; equal non-zero rates yield a sample-identical copy; for non-empty
input and non-zero rates the output length is the ceiling of
input_len x out_rate / in_rate; a one-sample input yields an output all of
whose samples equal that sample, and when out_rate is at most in_rate that
output is a single sample. -/
theorem resample_linear_spec (input : List ℚ) (from_sr to_sr : Nat) (x : ℚ) :
    (input = [] → resample_linear input from_sr to_sr = []) ∧
    (from_sr = 0 ∨ to_sr = 0 → resample_linear input from_sr to_sr = []) ∧
    (from_sr ≠ 0 → input ≠ [] → resample_linear input from_sr from_sr = input) ∧
    (from_sr ≠ 0 → to_sr ≠ 0 → input ≠ [] →
      (resample_linear input from_sr to_sr).length =
        (⌈((input.length : ℚ) * (to_sr : ℚ)) / (from_sr : ℚ)⌉).toNat) ∧
    (from_sr ≠ 0 → to_sr ≠ 0 → ∀ y ∈ resample_linear [x] from_sr to_sr, y = x) ∧
    (from_sr ≠ 0 → to_sr ≠ 0 → to_sr ≤ from_sr →
      (resample_linear [x] from_sr to_sr).length = 1) := by
  have hfrom_pos : from_sr = 0 ∨ 0 < from_sr := Nat.eq_zero_or_pos from_sr
  refine ⟨?_, ?_, ?_, ?_, ?_, ?_⟩
  · intro h
    unfold resample_linear
    rw [if_pos (Or.inr (Or.inr (by simp [h])))]
  · intro h
    unfold resample_linear
    rw [if_pos (by tauto)]
  · intro hf hne
    unfold resample_linear
    rw [if_neg (by simp [hf, List.isEmpty_iff, hne])]
    have hfq : ((from_sr : ℚ)) ≠ 0 := Nat.cast_ne_zero.mpr hf
    have hratio : ((input.length : ℚ) * (from_sr : ℚ)) / (from_sr : ℚ) = (input.length : ℚ) :=
      mul_div_cancel_right₀ _ hfq
    have hlen1 : 1 ≤ input.length := List.length_pos.mpr hne
    have hout : (max ⌈((input.length : ℚ) * (from_sr : ℚ)) / (from_sr : ℚ)⌉ 1).toNat =
        input.length := by
      rw [hratio, Int.ceil_natCast, max_eq_left (by exact_mod_cast hlen1)]
      exact Int.toNat_natCast _
    rw [hout]
    have hstep : ((from_sr : ℚ)) / ((from_sr : ℚ)) = 1 := div_self hfq
    refine List.ext_getElem (by simp) ?_
    intro i hi hi'
    have hin : i < input.length := by simpa using hi'
    simp only [List.getElem_map, List.getElem_range, hstep, mul_one]
    rw [Int.floor_natCast]
    rw [Int.toNat_natCast]
    rw [List.getD_eq_getElem?_getD]
    rw [List.getElem?_eq_getElem hin]
    simp
  · intro hf ht hne
    unfold resample_linear
    rw [if_neg (by simp [hf, ht, List.isEmpty_iff, hne])]
    simp only [List.length_map, List.length_range]
    have hpos : 0 < ((input.length : ℚ) * (to_sr : ℚ)) / (from_sr : ℚ) := by
      apply div_pos
      · have h1 : 0 < input.length := List.length_pos.mpr hne
        have h2 : 0 < to_sr := Nat.pos_of_ne_zero ht
        positivity
      · exact_mod_cast Nat.pos_of_ne_zero hf
    have hc := Int.ceil_pos.mpr hpos
    rw [max_eq_left (by omega)]
  · intro hf ht y hy
    unfold resample_linear at hy
    rw [if_neg (by simp [hf, ht])] at hy
    obtain ⟨i, hi, rfl⟩ := List.mem_map.mp hy
    have hiq : (i : ℚ) < ((to_sr : ℚ)) / ((from_sr : ℚ)) := by
      have hi' : i < (max ⌈(((([x] : List ℚ).length : ℚ)) * (to_sr : ℚ)) / (from_sr : ℚ)⌉ 1).toNat :=
        List.mem_range.mp hi
      have hr : ((([x] : List ℚ).length : ℚ)) * (to_sr : ℚ) / (from_sr : ℚ) =
          ((to_sr : ℚ)) / ((from_sr : ℚ)) := by
        simp
      rw [hr] at hi'
      have hrpos : 0 < ((to_sr : ℚ)) / ((from_sr : ℚ)) := by
        apply div_pos
        · exact_mod_cast Nat.pos_of_ne_zero ht
        · exact_mod_cast Nat.pos_of_ne_zero hf
      have hc1 : 1 ≤ ⌈((to_sr : ℚ)) / ((from_sr : ℚ))⌉ := Int.ceil_pos.mpr hrpos
      rw [max_eq_left hc1] at hi'
      have hiz : (i : ℤ) < ⌈((to_sr : ℚ)) / ((from_sr : ℚ))⌉ := Int.lt_toNat.mp hi'
      calc (i : ℚ) ≤ (⌈((to_sr : ℚ)) / ((from_sr : ℚ))⌉ : ℚ) - 1 := by
            have h' : (i : ℤ) ≤ ⌈((to_sr : ℚ)) / ((from_sr : ℚ))⌉ - 1 := by omega
            exact_mod_cast h'
        _ < ((to_sr : ℚ)) / ((from_sr : ℚ)) := by
            have := Int.ceil_lt_add_one (((to_sr : ℚ)) / ((from_sr : ℚ)))
            push_cast at this ⊢
            linarith
    have hposq : (0 : ℚ) ≤ (i : ℚ) * (((from_sr : ℚ)) / ((to_sr : ℚ))) := by positivity
    have hlt1 : (i : ℚ) * (((from_sr : ℚ)) / ((to_sr : ℚ))) < 1 := by
      have htq : (0 : ℚ) < ((to_sr : ℚ)) := by exact_mod_cast Nat.pos_of_ne_zero ht
      have hfq : (0 : ℚ) < ((from_sr : ℚ)) := by exact_mod_cast Nat.pos_of_ne_zero hf
      rw [mul_div_assoc'] at *
      rw [div_lt_one htq]
      have := (lt_div_iff hfq).mp hiq
      linarith [mul_comm (i : ℚ) (from_sr : ℚ)]
    have hfloor : ⌊(i : ℚ) * (((from_sr : ℚ)) / ((to_sr : ℚ)))⌋ = 0 := by
      rw [Int.floor_eq_zero_iff]
      exact ⟨hposq, hlt1⟩
    dsimp only
    rw [hfloor]
    simp
  · intro hf ht hle
    unfold resample_linear
    rw [if_neg (by simp [hf, ht])]
    simp only [List.length_map, List.length_range]
    have hrpos : 0 < ((([x] : List ℚ).length : ℚ)) * (to_sr : ℚ) / (from_sr : ℚ) := by
      apply div_pos
      · have h2 : 0 < to_sr := Nat.pos_of_ne_zero ht
        simp
        positivity
      · exact_mod_cast Nat.pos_of_ne_zero hf
    have hle1 : ((([x] : List ℚ).length : ℚ)) * (to_sr : ℚ) / (from_sr : ℚ) ≤ 1 := by
      have hfq : (0 : ℚ) < ((from_sr : ℚ)) := by exact_mod_cast Nat.pos_of_ne_zero hf
      rw [div_le_one hfq]
      simp
      exact_mod_cast hle
    have hc : ⌈((([x] : List ℚ).length : ℚ)) * (to_sr : ℚ) / (from_sr : ℚ)⌉ = 1 :=
      le_antisymm (Int.ceil_le.mpr (by simpa using hle1)) (Int.ceil_pos.mpr hrpos)
    rw [hc]
    rfl

/-- C4 witness: identical non-zero rates on a concrete two-sample input give a
sample-identical copy. -/
theorem resample_linear_spec_w :
    resample_linear [1, 2] 2 2 = [1, 2] :=
  (resample_linear_spec [1, 2] 2 2 0).2.2.1 (by decide) (by decide)
